import Mathlib

/-!
Shallow embedding of the WebDAV markdown manager's core: the path mapper
(`PathUtils`), the directory-listing sort, the virtual-document overlay
(`WebDAVFileSystemProvider`), the clipboard state machine
(`cutItem` / `pasteItem` / `copyOrMoveFile` of `WebDAVTreeDataProvider`),
and the connection logic (`MyWebDAVClient.connectInternal`).

JavaScript strings are modelled as Lean `String`s (sequences of characters;
indices such as `substring(n)` and `.length` are modelled at character
granularity).  Asynchronous remote calls are modelled by passing the answers
of the remote store in as explicit oracle data and recording every issued
call in an output trace.
-/

namespace WebDAV

/-! ## Path mapper (`src/pathUtils.ts`)

The source normalizes paths with four regex replaces, in this order:
`replace(/\\/g, '/')`, `replace(/\/+/g, '/')`, `replace(/^\//, '')`,
`replace(/\/$/, '')`.  We model them character-list by character-list.
-/

/-- Model of `replace(/\\/g, '/')`: every backslash becomes a slash. -/
def backslashToSlash (l : List Char) : List Char :=
  l.map (fun c => if c = '\\' then '/' else c)

/-- Model of `replace(/\/+/g, '/')`: collapse each run of slashes to one. -/
def collapseSlashes : List Char → List Char
  | [] => []
  | [c] => [c]
  | a :: b :: t =>
    if a = '/' ∧ b = '/' then collapseSlashes (b :: t)
    else a :: collapseSlashes (b :: t)

/-- Model of `replace(/^\//, '')`: drop one leading slash. -/
def dropLeadingSlash : List Char → List Char
  | [] => []
  | c :: t => if c = '/' then t else c :: t

/-- Model of `replace(/\/$/, '')`: drop one trailing slash. -/
def dropTrailingSlash (l : List Char) : List Char :=
  (dropLeadingSlash l.reverse).reverse

/-- The four replaces applied in source order (the inline normalization used
by both `normalizeWebDAVPath` and `getRelativePathFromBase`). -/
def jsNormalizeChars (l : List Char) : List Char :=
  dropTrailingSlash (dropLeadingSlash (collapseSlashes (backslashToSlash l)))

/-- String-level wrapper for the inline normalization. -/
def normalizeSegs (s : String) : String :=
  ⟨jsNormalizeChars s.data⟩

/-- Model of `basePath.replace(/\/$/, '')` applied directly to a string. -/
def stripOneTrailingSlash (s : String) : String :=
  ⟨dropTrailingSlash s.data⟩

namespace PathUtils

/-- Embeds `PathUtils.normalizeWebDAVPath` (src/pathUtils.ts lines 11–29):
empty input returns `basePath` (or `/`); otherwise the input is normalized;
an input that normalizes to empty returns `basePath` with one trailing slash
stripped (or `/`); otherwise `'/' + normalized`. -/
def normalizeWebDAVPath (inputPath : String) (basePath : String) : String :=
  if inputPath = "" then (if basePath = "/" then "/" else basePath)
  else
    let normalized := normalizeSegs inputPath
    if normalized = "" then (if basePath = "/" then "/" else stripOneTrailingSlash basePath)
    else "/" ++ normalized

/-- Embeds `PathUtils.getRelativePathFromBase` (src/pathUtils.ts lines 34–61):
both arguments are normalized; an empty-or-root base returns the normalized
full path; a full path of the form `base ++ "/" ++ rest` returns `rest`
(`substring(base.length + 1)`); an equal path returns `""`; anything else
returns the normalized full path. -/
def getRelativePathFromBase (fullPath : String) (basePath : String) : String :=
  let n := jsNormalizeChars fullPath.data
  let b := jsNormalizeChars basePath.data
  if b = [] ∨ b = ['/'] then ⟨n⟩
  else if (b ++ ['/']).isPrefixOf n then ⟨n.drop (b.length + 1)⟩
  else if n = b then ""
  else ⟨n⟩

end PathUtils

/-! ## Node `path.posix` helpers used by the tree engine

`path.basename` and `path.dirname` as Node implements them for
slash-separated paths (trailing separators ignored; `dirname` keeps the text
before the last separator of the basename without normalizing it).
-/

namespace NodePath

/-- Model of Node `path.basename(p)` for slash-separated paths. -/
def basename (p : String) : String :=
  let t := p.data.reverse.dropWhile (fun c => c = '/')
  ⟨(t.takeWhile (fun c => c ≠ '/')).reverse⟩

/-- Model of Node `path.dirname(p)` for slash-separated paths, including the
`hasRoot` special cases of the source (`'/'`, `'.'` and the `'//'` quirk). -/
def dirname (p : String) : String :=
  if p = "" then "."
  else
    let hasRoot := p.data.head? = some '/'
    let u := p.data.reverse.dropWhile (fun c => c = '/')
    let w := u.dropWhile (fun c => c ≠ '/')
    let rest := w.drop 1
    if w = [] then (if hasRoot then "/" else ".")
    else if rest = [] then "/"
    else if hasRoot ∧ rest = ['/'] then "//"
    else ⟨rest.reverse⟩

end NodePath


/-! ## Directory-listing sort (`getRemoteFiles`, src/treeDataProvider.ts 470–482)

The listing entries coming back from the protocol client are dynamic objects;
the sort comparator reads `type`, `mime`, `basename` and `filename`.  We model
such an entry by those four (possibly absent) fields.  `Array.prototype.sort`
is a stable sort, so with a consistent comparator its result is the unique
stable sort of the input; we model it by a stable insertion sort.
`localeCompare(..., { sensitivity: 'base' })` is modelled for ASCII names as
ordinal comparison of the lowercased strings, and `toLowerCase` as ASCII
lowercasing. -/

structure RawEntry where
  basename : Option String
  filename : Option String
  type : Option String
  mime : Option String
deriving DecidableEq, Repr

/-- JavaScript `a || b` on a possibly-absent string (`""` is falsy). -/
def jsStringOr (v : Option String) (d : String) : String :=
  match v with
  | some s => if s = "" then d else s
  | none => d

/-- Model of `s.includes(sub)` on character lists. -/
def listContainsSub (sub : List Char) : List Char → Bool
  | [] => sub.isPrefixOf []
  | c :: t => sub.isPrefixOf (c :: t) || listContainsSub sub t

/-- The comparator's `a.type === 'directory' || (a.mime && a.mime.includes('directory'))`. -/
def entryIsDir (e : RawEntry) : Bool :=
  e.type == some "directory" ||
    (match e.mime with
     | some m => if m = "" then false else listContainsSub "directory".data m.data
     | none => false)

/-- The comparator's `a.basename || a.filename || ''`. -/
def entryName (e : RawEntry) : String :=
  jsStringOr e.basename (jsStringOr e.filename "")

/-- ASCII model of `String.prototype.toLowerCase` on a character list. -/
def asciiLowerChars (l : List Char) : List Char :=
  l.map (fun c =>
    if 65 ≤ c.toNat ∧ c.toNat ≤ 90 then Char.ofNat (c.toNat + 32) else c)

/-- String-level wrapper of `asciiLowerChars`. -/
def asciiToLower (s : String) : String :=
  ⟨asciiLowerChars s.data⟩

/-- Lexicographic (code-unit) strict comparison, JavaScript's ordinal order
on strings restricted to characters. -/
def lexLtChars : List Char → List Char → Bool
  | [], [] => false
  | [], _ :: _ => true
  | _ :: _, [] => false
  | a :: as, b :: bs =>
    if a.toNat < b.toNat then true
    else if b.toNat < a.toNat then false
    else lexLtChars as bs

/-- Non-strict version of `lexLtChars`. -/
def lexLeChars (x y : List Char) : Bool :=
  lexLtChars x y || decide (x = y)

/-- ASCII model of `aName.localeCompare(bName, undefined, { sensitivity: 'base' })`:
ordinal comparison of the lowercased names. -/
def localeCompareBase (a b : String) : Int :=
  let x := asciiLowerChars a.data
  let y := asciiLowerChars b.data
  if lexLtChars x y then -1 else if x = y then 0 else 1

/-- The sort comparator of `getRemoteFiles`: directories first, then
case-insensitive name order. -/
def listingCompare (a b : RawEntry) : Int :=
  let aIsDir := entryIsDir a
  let bIsDir := entryIsDir b
  if aIsDir && !bIsDir then -1
  else if !aIsDir && bIsDir then 1
  else localeCompareBase (entryName a) (entryName b)

/-- Whether `a` may stay before `b` under the comparator (comparator value ≤ 0). -/
def listingLeB (a b : RawEntry) : Bool :=
  decide (listingCompare a b ≤ 0)

/-- Insert into a sorted list, keeping the new element before later equals:
together with `stableSort` this is the unique stable sort. -/
def insertSorted (le : α → α → Bool) (x : α) : List α → List α
  | [] => [x]
  | y :: ys => if le x y then x :: y :: ys else y :: insertSorted le x ys

/-- Stable insertion sort, the model of `Array.prototype.sort(comparator)`. -/
def stableSort (le : α → α → Bool) : List α → List α
  | [] => []
  | x :: xs => insertSorted le x (stableSort le xs)

/-- The `items.sort(...)` step of `getRemoteFiles`. -/
def sortDirectoryListing (items : List RawEntry) : List RawEntry :=
  stableSort listingLeB items



/-! ## Errors and remote calls

Thrown errors are classified in the source by string tests on the message
(`error.message.includes('404') || error.message.includes('Not Found')`);
we carry that classification as a boolean on the modelled error.  Every
remote call a routine issues is recorded in an output trace.  Remote-store
answers are passed in as explicit oracle data. -/

/-- A thrown error, reduced to what the engine inspects: whether its message
matches the 404 / Not Found test. -/
structure JsError where
  isNotFound : Bool
deriving DecidableEq, Repr

/-- The calls the engine can issue against the remote store. -/
inductive RemoteCall where
  | stat (p : String)
  | getDirectoryContents (p : String)
  | getFileContents (p : String)
  | createDirectory (p : String)
  | createFile (p : String) (content : String)
  | putFileContents (p : String)
  | deleteFile (p : String)
  | deleteDirectory (p : String)
deriving DecidableEq, Repr

/-- Whether a call can change the remote tree (create / write / delete);
`stat` and the two reads cannot. -/
def RemoteCall.isMutating : RemoteCall → Bool
  | .stat _ => false
  | .getDirectoryContents _ => false
  | .getFileContents _ => false
  | _ => true

/-- The remote tree as a finite map from absolute path to file content
(directories carried as entries with a `none` content). -/
abbrev RemoteFS : Type := List (String × Option String)

/-- Effect of one remote call on the remote tree: reads change nothing,
creates insert, writes replace, deletes remove (recursively for a
directory). -/
def applyCall (fs : RemoteFS) : RemoteCall → RemoteFS
  | .stat _ => fs
  | .getDirectoryContents _ => fs
  | .getFileContents _ => fs
  | .createDirectory p => (p, none) :: fs.filter (fun e => e.1 ≠ p)
  | .createFile p c => (p, some c) :: fs.filter (fun e => e.1 ≠ p)
  | .putFileContents p => (p, some "") :: fs.filter (fun e => e.1 ≠ p)
  | .deleteFile p => fs.filter (fun e => e.1 ≠ p)
  | .deleteDirectory p =>
    fs.filter (fun e => e.1 ≠ p ∧ ¬ (p ++ "/").isPrefixOf e.1)

/-- Effect of a call trace on the remote tree, first call first. -/
def applyCalls (calls : List RemoteCall) (fs : RemoteFS) : RemoteFS :=
  calls.foldl applyCall fs

/-! ## Virtual document overlay (`WebDAVFileSystemProvider`, src/unnamed/part_005)

`vscode.Uri.parse(...).toString()` is modelled as the identity on the URI
string, and `TextEncoder` as the identity on the content string, so a
document's content is carried as a `String`.  The `virtualFiles` map is an
association list keyed by the URI string, with `Map.set` replacing in place. -/

structure VirtualFile where
  webdavPath : String
  fileName : String
  content : String
  mtime : Int
  ctime : Int
  size : Nat
  isDirty : Bool
deriving DecidableEq, Repr

/-- The tracked-document map (`virtualFiles : Map<string, VirtualFile>`). -/
abbrev VFileMap : Type := List (String × VirtualFile)

/-- Model of `Map.get`. -/
def vfGet : VFileMap → String → Option VirtualFile
  | [], _ => none
  | (k, v) :: t, key => if k = key then some v else vfGet t key

/-- Model of `Map.set`: replace in place if the key is present, else append. -/
def vfSet : VFileMap → String → VirtualFile → VFileMap
  | [], key, v => [(key, v)]
  | (k, w) :: t, key, v =>
    if k = key then (key, v) :: t else (k, w) :: vfSet t key v

/-- Hexadecimal digit (uppercase), as `encodeURIComponent` emits. -/
def hexDigit (n : Nat) : Char :=
  if n < 10 then Char.ofNat (48 + n) else Char.ofNat (55 + n)

/-- UTF-8 bytes of one character. -/
def utf8Bytes (c : Char) : List Nat :=
  let n := c.toNat
  if n < 128 then [n]
  else if n < 2048 then [192 + n / 64, 128 + n % 64]
  else if n < 65536 then [224 + n / 4096, 128 + (n / 64) % 64, 128 + n % 64]
  else [240 + n / 262144, 128 + (n / 4096) % 64, 128 + (n / 64) % 64, 128 + n % 64]

/-- The bytes `encodeURIComponent` leaves unescaped: `A–Z a–z 0–9 - _ . ! ~ * ( )`
and the apostrophe (byte 39). -/
def uriUnreserved (b : Nat) : Bool :=
  (65 ≤ b ∧ b ≤ 90) || (97 ≤ b ∧ b ≤ 122) || (48 ≤ b ∧ b ≤ 57) ||
    b = 45 || b = 95 || b = 46 || b = 33 || b = 126 || b = 42 || b = 39 || b = 40 || b = 41

/-- Model of JavaScript `encodeURIComponent`. -/
def encodeURIComponent (s : String) : String :=
  ⟨(s.data.flatMap utf8Bytes).flatMap (fun b =>
    if uriUnreserved b then [Char.ofNat b]
    else ['%', hexDigit (b / 16), hexDigit (b % 16)])⟩

/-- Embeds `createVirtualFileUri` (src/unnamed/part_005 lines 43–48):
`webdav-file://${encodeURIComponent(webdavPath)}/${fileName}`. -/
def createVirtualFileUri (webdavPath : String) (fileName : String) : String :=
  "webdav-file://" ++ encodeURIComponent webdavPath ++ "/" ++ fileName

/-- Embeds `openFile` (src/unnamed/part_005 lines 50–98).  The remote fetch
`getFileContents(webdavPath, { format: 'text' })` is passed in as `fetch`.
A Not-Found fetch yields a new empty document; any other fetch error is
rethrown.  The tracked map is updated unconditionally: the fetched content
is stored with `isDirty := false`, whatever was tracked before. -/
def openFile (files : VFileMap) (fetch : Except JsError String)
    (webdavPath : String) (fileName : String) (now : Int) :
    Except JsError (String × VFileMap) :=
  match fetch with
  | .error e =>
    if e.isNotFound then
      let uri := createVirtualFileUri webdavPath fileName
      .ok (uri, vfSet files uri
        ⟨webdavPath, fileName, "", now, now, 0, false⟩)
    else .error e
  | .ok content =>
    let uri := createVirtualFileUri webdavPath fileName
    .ok (uri, vfSet files uri
      ⟨webdavPath, fileName, content, now, now, content.length, false⟩)

/-! ## Clipboard state machine (`WebDAVTreeDataProvider`, src/treeDataProvider.ts)

`cutItem` (lines 1398–1436), `pasteItem` (lines 1439–1590) and
`copyOrMoveFile` (lines 1673–1758).  The tree-item fields the machine reads
are its `label`, `type`, `path` and `isFromTopToolbar`. -/

inductive ItemType where
  | file
  | directory
deriving DecidableEq, Repr

structure TreeItem where
  label : String
  type : ItemType
  path : String
  isFromTopToolbar : Bool
deriving DecidableEq, Repr

inductive ClipOp where
  | copy
  | cut
deriving DecidableEq, Repr

/-- The clipboard field of the provider (`item`, `operation`, `sourcePath`,
`timestamp`). -/
structure ClipboardEntry where
  item : TreeItem
  operation : ClipOp
  sourcePath : String
  timestamp : Int
deriving DecidableEq, Repr

/-- The clipboard expiry window checked by `pasteItem`: `10 * 60 * 1000` ms. -/
def clipboardExpiryMs : Int := 10 * 60 * 1000

/-- Outcome of `cutItem`: the new clipboard and the issued remote calls. -/
structure CutResult where
  clipboard : Option ClipboardEntry
  calls : List RemoteCall
deriving Repr

/-- Embeds `cutItem` (src/treeDataProvider.ts lines 1398–1436): it only
stats the source and, on success, records the entry with operation `cut`;
a Not-Found stat clears the clipboard; any other stat error leaves it. -/
def cutItem (isConnected : Bool) (hasClient : Bool)
    (clipboard : Option ClipboardEntry) (item : TreeItem)
    (statResult : Except JsError Unit) (now : Int) : CutResult :=
  if ¬ isConnected then ⟨clipboard, []⟩
  else if ¬ hasClient then ⟨clipboard, []⟩
  else
    match statResult with
    | .ok _ => ⟨some ⟨item, .cut, item.path, now⟩, [.stat item.path]⟩
    | .error e =>
      if e.isNotFound then ⟨none, [.stat item.path]⟩
      else ⟨clipboard, [.stat item.path]⟩

/-- What `stat(newPath)` answered inside `pasteItem`'s try block. -/
inductive DestStat where
  | found (t : ItemType)
  | notFound
  | otherError
deriving DecidableEq, Repr

/-- The remote-store and user answers consumed by one run of `pasteItem`:
whether `stat(sourcePath)` succeeds, what `stat(newPath)` answers, whether
the user confirms the overwrite prompt, whether deleting the existing
destination succeeds, and the calls and outcome of the recursive
copy-or-move step. -/
structure PasteOracle where
  statSourceOk : Bool
  destStat : DestStat
  overwriteConfirmed : Bool
  destDeleteOk : Bool
  transferCalls : List RemoteCall
  transferOk : Bool
deriving Repr

/-- Where one run of `pasteItem` returned, one constructor per `return` /
completion point of the source. -/
inductive PasteTag where
  | notConnected
  | emptyClipboard
  | expired
  | sourceMissing
  | selfPaste
  | intoOwnSubtree
  | overwriteCancelled
  | success
  | failed
deriving DecidableEq, Repr

/-- Outcome of `pasteItem`: the return point, the clipboard after the run
and the issued remote calls. -/
structure PasteResult where
  tag : PasteTag
  clipboard : Option ClipboardEntry
  calls : List RemoteCall
deriving Repr

/-- Target-directory resolution of `pasteItem`: no target or a top-toolbar
item resolves to the base path, a directory to its own path, a file to its
parent directory. -/
def resolvePasteTarget (currentBasePath : String) (target : Option TreeItem) : String :=
  match target with
  | none => currentBasePath
  | some t =>
    if t.isFromTopToolbar then currentBasePath
    else match t.type with
      | .directory => t.path
      | .file => NodePath.dirname t.path

/-- The destination path `pasteItem` computes:
`targetPath === '/' ? '/name' : targetPath + '/' + name` with
`name = path.basename(sourcePath)`. -/
def pasteNewPath (currentBasePath : String) (target : Option TreeItem)
    (sourcePath : String) : String :=
  let targetPath := resolvePasteTarget currentBasePath target
  let targetName := NodePath.basename sourcePath
  if targetPath = "/" then "/" ++ targetName else targetPath ++ "/" ++ targetName

/-- The tail of `pasteItem`'s try block: run the recursive transfer, then on
success clear the clipboard only for a cut; on a thrown error clear the
clipboard only for a cut. -/
def pasteTransferStep (e : ClipboardEntry) (prevCalls : List RemoteCall)
    (o : PasteOracle) : PasteResult :=
  let calls := prevCalls ++ o.transferCalls
  if o.transferOk then
    ⟨.success, if e.operation = .cut then none else some e, calls⟩
  else
    ⟨.failed, if e.operation = .cut then none else some e, calls⟩

/-- The body of `pasteItem` once the connection guard has passed and the
clipboard holds an entry (the `some e` branch of the source): expiry guard,
source stat, destination computation, self-paste and own-subtree rejections,
overwrite prompt with recursive deletion of an existing destination, then
the transfer. -/
def pasteItemHeld (e : ClipboardEntry) (currentBasePath : String)
    (target : Option TreeItem) (now : Int) (o : PasteOracle) : PasteResult :=
  if now - e.timestamp > clipboardExpiryMs then ⟨.expired, none, []⟩
  else if ¬ o.statSourceOk then ⟨.sourceMissing, none, [.stat e.sourcePath]⟩
  else
    let newPath := pasteNewPath currentBasePath target e.sourcePath
    if e.sourcePath = newPath then ⟨.selfPaste, some e, [.stat e.sourcePath]⟩
    else if e.item.type = .directory ∧ (e.sourcePath ++ "/").isPrefixOf newPath then
      ⟨.intoOwnSubtree, some e, [.stat e.sourcePath]⟩
    else
      match o.destStat with
      | .otherError =>
        ⟨.failed, if e.operation = .cut then none else some e,
          [.stat e.sourcePath, .stat newPath]⟩
      | .notFound =>
        pasteTransferStep e [.stat e.sourcePath, .stat newPath] o
      | .found t =>
        if ¬ o.overwriteConfirmed then
          ⟨.overwriteCancelled, some e, [.stat e.sourcePath, .stat newPath]⟩
        else
          let delCall := match t with
            | .directory => RemoteCall.deleteDirectory newPath
            | .file => RemoteCall.deleteFile newPath
          if ¬ o.destDeleteOk then
            ⟨.failed, if e.operation = .cut then none else some e,
              [.stat e.sourcePath, .stat newPath, delCall]⟩
          else
            pasteTransferStep e [.stat e.sourcePath, .stat newPath, delCall] o

/-- Embeds `pasteItem` (src/treeDataProvider.ts lines 1439–1590): the
connection and empty-clipboard guards, then `pasteItemHeld` on the held
entry. -/
def pasteItem (isConnected : Bool) (hasClient : Bool)
    (clipboard : Option ClipboardEntry) (currentBasePath : String)
    (target : Option TreeItem) (now : Int) (o : PasteOracle) : PasteResult :=
  if ¬ (isConnected ∧ hasClient) then ⟨.notConnected, clipboard, []⟩
  else
    match clipboard with
    | none => ⟨.emptyClipboard, none, []⟩
    | some e => pasteItemHeld e currentBasePath target now o

/-- The remote answers consumed by one run of `copyOrMoveFile`: the
text-mode read, the binary-mode read, the destination write and the source
delete. -/
structure FileTransferOracle where
  textRead : Except JsError String
  binaryRead : Except JsError String
  writeOk : Bool
  deleteResult : Except JsError Unit
deriving Repr

/-- Outcome of `copyOrMoveFile`. -/
structure FileTransferResult where
  ok : Bool
  calls : List RemoteCall
deriving Repr

/-- The delete-source tail of `copyOrMoveFile`: only for a cut; a Not-Found
delete error is tolerated, any other delete error is rethrown. -/
def fileDeleteStep (sourcePath : String) (op : ClipOp)
    (prevCalls : List RemoteCall) (o : FileTransferOracle) : FileTransferResult :=
  if op = .cut then
    let calls := prevCalls ++ [.deleteFile sourcePath]
    match o.deleteResult with
    | .ok _ => ⟨true, calls⟩
    | .error e => if e.isNotFound then ⟨true, calls⟩ else ⟨false, calls⟩
  else ⟨true, prevCalls⟩

/-- Embeds `copyOrMoveFile` (src/treeDataProvider.ts lines 1673–1758): read
the source as text, fall back to binary on any error; if the binary read
fails with Not-Found, a cut continues with empty text content while a copy
fails; write through `createFile` (text) or `putFileContents` (binary); for
a cut delete the source, tolerating Not-Found. -/
def copyOrMoveFile (sourcePath : String) (targetPath : String) (op : ClipOp)
    (o : FileTransferOracle) : FileTransferResult :=
  match o.textRead with
  | .ok c =>
    let calls := [.getFileContents sourcePath, .createFile targetPath c]
    if o.writeOk then fileDeleteStep sourcePath op calls o
    else ⟨false, calls⟩
  | .error _ =>
    match o.binaryRead with
    | .ok _ =>
      let calls := [RemoteCall.getFileContents sourcePath,
        RemoteCall.getFileContents sourcePath, RemoteCall.putFileContents targetPath]
      if o.writeOk then fileDeleteStep sourcePath op calls o
      else ⟨false, calls⟩
    | .error e =>
      let readCalls := [RemoteCall.getFileContents sourcePath,
        RemoteCall.getFileContents sourcePath]
      if e.isNotFound then
        if op = .cut then
          let calls := readCalls ++ [.createFile targetPath ""]
          if o.writeOk then fileDeleteStep sourcePath op calls o
          else ⟨false, calls⟩
        else ⟨false, readCalls⟩
      else ⟨false, readCalls⟩

/-! ## Connection (`MyWebDAVClient.connectInternal`, src/treeDataProvider.ts 1937–2019)

The `createClient` handle is modelled by the credentials it is created
from; the connection-test probe (`testConnectionInternal` raced against the
30-second timer) is passed in as an oracle.  The thrown error carries the
fields the handler inspects: `message`, `status` and `code`. -/

structure ClientHandle where
  serverUrl : String
  username : String
  password : String
deriving DecidableEq, Repr

/-- The `WebDAVConnection` session record. -/
structure WebDAVConnection where
  client : ClientHandle
  connected : Bool
  serverUrl : String
  basePath : String
  username : String
  lastConnected : Int
deriving DecidableEq, Repr

/-- The error thrown by the connection test, reduced to the fields the
handler reads. -/
structure ConnTestError where
  message : String
  status : Option Int
  code : Option String
deriving DecidableEq, Repr

/-- The timeout message raced against the test. -/
def connTimeoutMsg : String := "连接超时，请检查网络连接或服务器状态"

/-- The error-translation chain of `connectInternal`'s test handler. -/
def mapConnTestError (e : ConnTestError) : String :=
  if e.message = connTimeoutMsg then e.message
  else if e.status = some 401 ∨ e.status = some 403 then "认证失败，请检查用户名和密码"
  else if e.status = some 404 then "服务器地址不存在或无法访问"
  else if e.status = some 0 then "网络连接失败，请检查网络设置"
  else if e.code = some "ENOTFOUND" then "无法解析服务器地址，请检查网络连接"
  else if e.code = some "ECONNREFUSED" then "连接被拒绝，请检查服务器地址和端口"
  else if e.code = some "ETIMEDOUT" then "连接超时，请检查网络连接"
  else if e.code = some "CERT_HAS_EXPIRED" then "SSL证书已过期，请联系服务器管理员"
  else "连接测试失败: " ++ (if e.message = "" then "未知错误" else e.message)

/-- Model of `serverUrl.trim()` with one trailing slash stripped (`slice(0, -1)`). -/
def cleanServerUrl (serverUrl : String) : String :=
  let t := serverUrl.trim
  if t.endsWith "/" then t.dropRight 1 else t

/-- Embeds `connectInternal` (src/treeDataProvider.ts lines 1937–2019):
validation, URL cleaning, the connection test, and the session assignment;
the surrounding catch sets `this.connection = null` and rethrows, so the
returned pair is the thrown-or-returned value and the connection field after
the run (the prior connection is overwritten on every path). -/
def connectInternal (_prior : Option WebDAVConnection) (serverUrl : String)
    (username : String) (password : String) (basePath : String)
    (test : Except ConnTestError Unit) (now : Int) :
    Except String Bool × Option WebDAVConnection :=
  if serverUrl = "" ∨ username = "" ∨ password = "" then
    (.error "服务器地址、用户名或密码不能为空", none)
  else if ¬ (serverUrl.startsWith "http://" ∨ serverUrl.startsWith "https://") then
    (.error "服务器地址必须以 http:// 或 https:// 开头", none)
  else
    let cleaned := cleanServerUrl serverUrl
    match test with
    | .error e => (.error (mapConnTestError e), none)
    | .ok _ =>
      (.ok true, some ⟨⟨cleaned, username.trim, password.trim⟩,
        true, cleaned, basePath, username, now⟩)

/-! ## Lemmas about the inline path normalization -/

theorem collapseSlashes_head (x : Char) (xs : List Char) :
    (collapseSlashes (x :: xs)).head? = some x := by
  induction xs generalizing x with
  | nil => simp [collapseSlashes]
  | cons y ys ih =>
    simp only [collapseSlashes]
    split
    · next h => rw [ih y]; simp [h.1, h.2]
    · simp

theorem collapseSlashes_no_double (w : List Char) :
    ∀ t : List Char, collapseSlashes w ≠ '/' :: '/' :: t := by
  induction w using collapseSlashes.induct with
  | case1 => intro t h; simp [collapseSlashes] at h
  | case2 c => intro t h; simp [collapseSlashes] at h
  | case3 a b t' hab ih =>
    intro t h
    rw [collapseSlashes, if_pos hab] at h
    exact ih t h
  | case4 a b t' hab ih =>
    intro t h
    rw [collapseSlashes, if_neg hab] at h
    have ha : a = '/' := by exact (List.cons.injEq _ _ _ _ ▸ h).1
    have htl : collapseSlashes (b :: t') = '/' :: t := (List.cons.injEq _ _ _ _ ▸ h).2
    have hb : b = '/' := by
      have := collapseSlashes_head b t'
      rw [htl] at this
      simpa using this.symm
    exact hab ⟨ha, hb⟩

theorem dropLeadingSlash_eq_single (z : List Char)
    (h : dropLeadingSlash z = ['/']) : z = ['/', '/'] := by
  match z with
  | [] => simp [dropLeadingSlash] at h
  | c :: t =>
    simp only [dropLeadingSlash] at h
    split at h
    · next hc => rw [hc, h]
    · next hc => exact absurd ((List.cons.injEq _ _ _ _ ▸ h).1) hc

theorem dropLeadingSlash_eq_double (z : List Char)
    (h : dropLeadingSlash z = ['/', '/']) : z = ['/', '/', '/'] := by
  match z with
  | [] => simp [dropLeadingSlash] at h
  | c :: t =>
    simp only [dropLeadingSlash] at h
    split at h
    · next hc => rw [hc, h]
    · next hc => exact absurd ((List.cons.injEq _ _ _ _ ▸ h).1) hc

theorem dropTrailingSlash_eq_single (y : List Char)
    (h : dropTrailingSlash y = ['/']) : y = ['/', '/'] := by
  unfold dropTrailingSlash at h
  have h2 : dropLeadingSlash y.reverse = ['/'] := by
    have := congrArg List.reverse h
    simpa using this
  have := dropLeadingSlash_eq_single _ h2
  have := congrArg List.reverse this
  simpa using this

theorem jsNormalizeChars_ne_slash (l : List Char) :
    jsNormalizeChars l ≠ ['/'] := by
  intro h
  unfold jsNormalizeChars at h
  have h1 := dropTrailingSlash_eq_single _ h
  have h2 := dropLeadingSlash_eq_double _ h1
  exact collapseSlashes_no_double _ ['/'] h2

theorem isPrefixOf_append_self (l t : List Char) :
    l.isPrefixOf (l ++ t) = true := by
  induction l with
  | nil => simp [List.isPrefixOf]
  | cons a as ih => simp [List.isPrefixOf, ih]

theorem length_le_of_isPrefixOf :
    ∀ l m : List Char, l.isPrefixOf m = true → l.length ≤ m.length := by
  intro l
  induction l with
  | nil => intro m _; simp
  | cons a as ih =>
    intro m h
    cases m with
    | nil => simp [List.isPrefixOf] at h
    | cons b bs =>
      simp only [List.isPrefixOf, Bool.and_eq_true] at h
      have := ih bs h.2
      simp [Nat.succ_le_succ this]

theorem exists_append_of_isPrefixOf :
    ∀ l m : List Char, l.isPrefixOf m = true → ∃ t, m = l ++ t := by
  intro l
  induction l with
  | nil => intro m _; exact ⟨m, rfl⟩
  | cons a as ih =>
    intro m h
    cases m with
    | nil => simp [List.isPrefixOf] at h
    | cons b bs =>
      simp only [List.isPrefixOf, Bool.and_eq_true, beq_iff_eq] at h
      rcases ih bs h.2 with ⟨t, ht⟩
      exact ⟨t, by rw [ht, h.1]; simp⟩

theorem append_singleton_not_isPrefixOf (n : List Char) (c : Char) :
    (n ++ [c]).isPrefixOf n = false := by
  cases hb : (n ++ [c]).isPrefixOf n with
  | false => rfl
  | true =>
    have := length_le_of_isPrefixOf _ _ hb
    simp at this

theorem strExt (s t : String) (h : s.data = t.data) : s = t := by
  cases s
  cases t
  exact congrArg String.mk h

/-- C2 (corrected): `getRelativePathFromBase` returns the empty string (not
`/`) on equal paths; when the normalized full path is the normalized base
plus a separator plus a remainder, it returns the remainder without a
leading separator; when the base normalizes to empty or to the root, and in
the mismatch case, it returns the normalized full path (not the input
unchanged). -/
theorem getRelativePathFromBase_characterization :
    (∀ full base : String, full = base →
      PathUtils.getRelativePathFromBase full base = "") ∧
    (∀ full base : String, (normalizeSegs base = "" ∨ normalizeSegs base = "/") →
      PathUtils.getRelativePathFromBase full base = normalizeSegs full) ∧
    (∀ full base rest : String, normalizeSegs base ≠ "" → normalizeSegs base ≠ "/" →
      normalizeSegs full = normalizeSegs base ++ "/" ++ rest →
      PathUtils.getRelativePathFromBase full base = rest) ∧
    (∀ full base : String, normalizeSegs base ≠ "" → normalizeSegs base ≠ "/" →
      (∀ rest : String, normalizeSegs full ≠ normalizeSegs base ++ "/" ++ rest) →
      normalizeSegs full ≠ normalizeSegs base →
      PathUtils.getRelativePathFromBase full base = normalizeSegs full) := by
  refine ⟨?_, ?_, ?_, ?_⟩
  · intro full base h
    subst h
    simp only [PathUtils.getRelativePathFromBase]
    split
    · next h1 =>
      rcases h1 with h1 | h1
      · rw [h1]
      · exact absurd h1 (jsNormalizeChars_ne_slash _)
    · rw [append_singleton_not_isPrefixOf]
      simp
  · intro full base h
    have hb : jsNormalizeChars base.data = [] ∨ jsNormalizeChars base.data = ['/'] := by
      rcases h with h | h
      · left
        have h' : (⟨jsNormalizeChars base.data⟩ : String) = ⟨[]⟩ := h
        injection h'
      · right
        have h' : (⟨jsNormalizeChars base.data⟩ : String) = ⟨['/']⟩ := h
        injection h'
    simp only [PathUtils.getRelativePathFromBase]
    rw [if_pos hb]
    rfl
  · intro full base rest hb1 hb2 h
    have hb1' : jsNormalizeChars base.data ≠ [] := by
      intro hx; exact hb1 (by rw [normalizeSegs, hx])
    have hb2' : jsNormalizeChars base.data ≠ ['/'] := by
      intro hx; exact hb2 (by rw [normalizeSegs, hx])
    have hdata : jsNormalizeChars full.data
        = (jsNormalizeChars base.data ++ ['/']) ++ rest.data := by
      have := congrArg String.data h
      simpa [normalizeSegs, String.data_append] using this
    simp only [PathUtils.getRelativePathFromBase]
    rw [if_neg (by simp [hb1', hb2'])]
    rw [if_pos (by
      rw [hdata]
      exact isPrefixOf_append_self _ _)]
    apply strExt
    rw [hdata]
    have hlen : (jsNormalizeChars base.data).length + 1
        = (jsNormalizeChars base.data ++ ['/']).length := by simp
    rw [hlen, List.drop_left]
  · intro full base hb1 hb2 hnp hne
    have hb1' : jsNormalizeChars base.data ≠ [] := by
      intro hx; exact hb1 (by rw [normalizeSegs, hx])
    have hb2' : jsNormalizeChars base.data ≠ ['/'] := by
      intro hx; exact hb2 (by rw [normalizeSegs, hx])
    simp only [PathUtils.getRelativePathFromBase]
    rw [if_neg (by simp [hb1', hb2'])]
    rw [if_neg (by
      intro hp
      rcases exists_append_of_isPrefixOf _ _ hp with ⟨t, ht⟩
      refine hnp ⟨t⟩ (strExt _ _ ?_)
      simp only [normalizeSegs, String.data_append]
      rw [← ht])]
    rw [if_neg (by
      intro hx
      exact hne (strExt _ _ (by simpa [normalizeSegs] using hx)))]
    rfl

/-- C2 counterexample: at `("/a", "/a")` the result is `""`, not `"/"`; at
`("/a/b", "/a")` it is `"b"`, not `"/b"`; at `("/x/y/", "/q")` it is the
normalized `"x/y"`, not the input `"/x/y/"` unchanged. -/
theorem getRelativePathFromBase_claim_cex :
    PathUtils.getRelativePathFromBase "/a" "/a" ≠ "/" ∧
    PathUtils.getRelativePathFromBase "/a/b" "/a" ≠ "/b" ∧
    PathUtils.getRelativePathFromBase "/x/y/" "/q" ≠ "/x/y/" := by decide

/-- C6 (corrected): the round trip
`relativeTo(abs, normalize(relativeTo(abs, base), base)) = relativeTo(abs, base)`
holds when `relativeTo(abs, base)` is empty (the two paths normalize to the
same thing); it fails in general. -/
theorem roundTrip_of_relative_empty (full base : String)
    (h : PathUtils.getRelativePathFromBase full base = "") :
    PathUtils.getRelativePathFromBase full
        (PathUtils.normalizeWebDAVPath (PathUtils.getRelativePathFromBase full base) base)
      = PathUtils.getRelativePathFromBase full base := by
  rw [h]
  by_cases hb : base = "/"
  · subst hb
    rw [show PathUtils.normalizeWebDAVPath "" "/" = "/" from rfl]
    exact h
  · rw [show PathUtils.normalizeWebDAVPath "" base = base from by
      simp [PathUtils.normalizeWebDAVPath, hb]]
    exact h

/-- C6 witness: the round trip at `("/a", "/a")`, where the relative path is
empty. -/
theorem roundTrip_witness :
    PathUtils.getRelativePathFromBase "/a" "/a" = "" ∧
    PathUtils.getRelativePathFromBase "/a"
        (PathUtils.normalizeWebDAVPath (PathUtils.getRelativePathFromBase "/a" "/a") "/a")
      = PathUtils.getRelativePathFromBase "/a" "/a" :=
  ⟨by decide, roundTrip_of_relative_empty "/a" "/a" (by decide)⟩

/-- C6 counterexample: at `("/b/s", "/b")` the inner relative path is `"s"`,
its normalization against the base is `"/s"`, and relativizing `"/b/s"`
against `"/s"` yields the mismatch result `"b/s"`, not `"s"`. -/
theorem roundTrip_cex :
    PathUtils.getRelativePathFromBase "/b/s"
        (PathUtils.normalizeWebDAVPath (PathUtils.getRelativePathFromBase "/b/s" "/b") "/b")
      ≠ PathUtils.getRelativePathFromBase "/b/s" "/b" := by decide

/-! ## Lemmas about the listing comparator and the stable sort -/

theorem charEq_of_toNat_eq (a b : Char) (h : a.toNat = b.toNat) : a = b :=
  Char.eq_of_val_eq (UInt32.toNat.inj h)

theorem lexLt_cons_iff (a b : Char) (as bs : List Char) :
    lexLtChars (a :: as) (b :: bs) = true ↔
      a.toNat < b.toNat ∨ (a.toNat = b.toNat ∧ lexLtChars as bs = true) := by
  simp only [lexLtChars]
  split
  · next h => simp [h]
  · next h1 =>
    split
    · next h2 =>
      constructor
      · intro h; simp at h
      · intro h
        rcases h with h | ⟨h, _⟩ <;> omega
    · next h2 =>
      have : a.toNat = b.toNat := by omega
      simp [this]

theorem lexLtChars_trichotomy : ∀ x y : List Char,
    lexLtChars x y = true ∨ x = y ∨ lexLtChars y x = true := by
  intro x
  induction x with
  | nil =>
    intro y
    cases y with
    | nil => exact Or.inr (Or.inl rfl)
    | cons b bs => exact Or.inl rfl
  | cons a as ih =>
    intro y
    cases y with
    | nil => exact Or.inr (Or.inr rfl)
    | cons b bs =>
      by_cases h1 : a.toNat < b.toNat
      · exact Or.inl ((lexLt_cons_iff a b as bs).mpr (Or.inl h1))
      · by_cases h2 : b.toNat < a.toNat
        · exact Or.inr (Or.inr ((lexLt_cons_iff b a bs as).mpr (Or.inl h2)))
        · have hab : a = b := charEq_of_toNat_eq a b (by omega)
          subst hab
          rcases ih bs with h | h | h
          · exact Or.inl ((lexLt_cons_iff a a as bs).mpr (Or.inr ⟨rfl, h⟩))
          · exact Or.inr (Or.inl (by rw [h]))
          · exact Or.inr (Or.inr ((lexLt_cons_iff a a bs as).mpr (Or.inr ⟨rfl, h⟩)))

theorem lexLtChars_trans : ∀ x y z : List Char,
    lexLtChars x y = true → lexLtChars y z = true → lexLtChars x z = true := by
  intro x
  induction x with
  | nil =>
    intro y z hxy hyz
    cases y with
    | nil => simp [lexLtChars] at hxy
    | cons b bs =>
      cases z with
      | nil => simp [lexLtChars] at hyz
      | cons c cs => rfl
  | cons a as ih =>
    intro y z hxy hyz
    cases y with
    | nil => simp [lexLtChars] at hxy
    | cons b bs =>
      cases z with
      | nil => simp [lexLtChars] at hyz
      | cons c cs =>
        rw [lexLt_cons_iff] at hxy hyz ⊢
        rcases hxy with h | ⟨h, hxy'⟩ <;> rcases hyz with g | ⟨g, hyz'⟩
        · exact Or.inl (by omega)
        · exact Or.inl (by omega)
        · exact Or.inl (by omega)
        · exact Or.inr ⟨by omega, ih bs cs hxy' hyz'⟩

theorem listingLeB_eq_true_iff (a b : RawEntry) :
    listingLeB a b = true ↔
      ((entryIsDir a = true ∧ entryIsDir b = false) ∨
       (entryIsDir a = entryIsDir b ∧
         (lexLtChars (asciiLowerChars (entryName a).data)
             (asciiLowerChars (entryName b).data) = true ∨
          asciiLowerChars (entryName a).data = asciiLowerChars (entryName b).data))) := by
  unfold listingLeB listingCompare localeCompareBase
  cases ha : entryIsDir a <;> cases hb : entryIsDir b <;> simp [ha, hb]
  · split
    · next h => simp [h]
    · next h1 =>
      split
      · next h2 => simp [h1, h2]
      · next h2 => simp [h1, h2]
  · split
    · next h => simp [h]
    · next h1 =>
      split
      · next h2 => simp [h1, h2]
      · next h2 => simp [h1, h2]

theorem listingLeB_total (a b : RawEntry) :
    listingLeB a b = true ∨ listingLeB b a = true := by
  rw [listingLeB_eq_true_iff, listingLeB_eq_true_iff]
  cases ha : entryIsDir a <;> cases hb : entryIsDir b <;> simp
  · rcases lexLtChars_trichotomy (asciiLowerChars (entryName a).data)
      (asciiLowerChars (entryName b).data) with h | h | h
    · exact Or.inl (Or.inl h)
    · exact Or.inl (Or.inr h)
    · exact Or.inr (Or.inl h)
  · rcases lexLtChars_trichotomy (asciiLowerChars (entryName a).data)
      (asciiLowerChars (entryName b).data) with h | h | h
    · exact Or.inl (Or.inl h)
    · exact Or.inl (Or.inr h)
    · exact Or.inr (Or.inl h)

theorem listingLeB_trans (a b c : RawEntry) (h1 : listingLeB a b = true)
    (h2 : listingLeB b c = true) : listingLeB a c = true := by
  rw [listingLeB_eq_true_iff] at h1 h2 ⊢
  rcases h1 with ⟨ha1, hb1⟩ | ⟨heq1, hord1⟩ <;>
    rcases h2 with ⟨hb2, hc2⟩ | ⟨heq2, hord2⟩
  · rw [hb1] at hb2; exact absurd hb2 (by simp)
  · exact Or.inl ⟨ha1, heq2 ▸ hb1⟩
  · exact Or.inl ⟨heq1 ▸ hb2, hc2⟩
  · refine Or.inr ⟨heq1.trans heq2, ?_⟩
    rcases hord1 with h | h <;> rcases hord2 with g | g
    · exact Or.inl (lexLtChars_trans _ _ _ h g)
    · exact Or.inl (g ▸ h)
    · exact Or.inl (h ▸ g)
    · exact Or.inr (h.trans g)

theorem mem_insertSorted {α : Type} (le : α → α → Bool) (x : α) (l : List α) :
    ∀ z, z ∈ insertSorted le x l → z = x ∨ z ∈ l := by
  induction l with
  | nil => intro z h; simpa [insertSorted] using h
  | cons y ys ih =>
    intro z h
    simp only [insertSorted] at h
    split at h
    · rcases List.mem_cons.mp h with h | h
      · exact Or.inl h
      · exact Or.inr h
    · rcases List.mem_cons.mp h with h | h
      · exact Or.inr (by simp [h])
      · rcases ih z h with h' | h'
        · exact Or.inl h'
        · exact Or.inr (by simp [h'])

theorem pairwise_insertSorted {α : Type} (le : α → α → Bool)
    (htrans : ∀ a b c, le a b = true → le b c = true → le a c = true)
    (htot : ∀ a b, le a b = true ∨ le b a = true)
    (x : α) (l : List α) (h : l.Pairwise (fun a b => le a b = true)) :
    (insertSorted le x l).Pairwise (fun a b => le a b = true) := by
  induction l with
  | nil => simp [insertSorted]
  | cons y ys ih =>
    rcases List.pairwise_cons.mp h with ⟨hy, hys⟩
    simp only [insertSorted]
    split
    · next hxy =>
      refine List.pairwise_cons.mpr ⟨?_, h⟩
      intro z hz
      rcases List.mem_cons.mp hz with rfl | hz'
      · exact hxy
      · exact htrans x y z hxy (hy z hz')
    · next hxy =>
      have hyx : le y x = true := by
        rcases htot x y with h' | h'
        · exact absurd h' hxy
        · exact h'
      refine List.pairwise_cons.mpr ⟨?_, ih hys⟩
      intro z hz
      rcases mem_insertSorted le x ys z hz with rfl | hz'
      · exact hyx
      · exact hy z hz'

theorem pairwise_stableSort {α : Type} (le : α → α → Bool)
    (htrans : ∀ a b c, le a b = true → le b c = true → le a c = true)
    (htot : ∀ a b, le a b = true ∨ le b a = true)
    (l : List α) : (stableSort le l).Pairwise (fun a b => le a b = true) := by
  induction l with
  | nil => simp [stableSort]
  | cons x xs ih => exact pairwise_insertSorted le htrans htot x _ ih

/-- C7: every sorted listing has directories before files and, within the
same kind, case-insensitive name order; in particular the listing
`["b.txt" (file), "A" (directory), "a.txt" (file)]` sorts to
`["A", "a.txt", "b.txt"]`. -/
theorem sortDirectoryListing_ordered :
    (∀ items : List RawEntry, (sortDirectoryListing items).Pairwise (fun a b =>
        (entryIsDir b = true → entryIsDir a = true) ∧
        (entryIsDir a = entryIsDir b →
          lexLeChars (asciiLowerChars (entryName a).data)
            (asciiLowerChars (entryName b).data) = true))) ∧
    (sortDirectoryListing
        [⟨some "b.txt", none, some "file", none⟩,
         ⟨some "A", none, some "directory", none⟩,
         ⟨some "a.txt", none, some "file", none⟩]).map entryName
      = ["A", "a.txt", "b.txt"] := by
  constructor
  · intro items
    have hs := pairwise_stableSort listingLeB listingLeB_trans listingLeB_total items
    refine hs.imp ?_
    intro a b hab
    rcases (listingLeB_eq_true_iff a b).mp hab with ⟨ha, hb⟩ | ⟨heq, hord⟩
    · constructor
      · intro hbd; rw [hbd] at hb; exact absurd hb (by simp)
      · intro he; rw [ha, hb] at he; exact absurd he (by simp)
    · constructor
      · intro hbd; rw [heq, hbd]
      · intro _
        unfold lexLeChars
        rcases hord with h | h <;> simp [h]
  · decide

/-! ## Virtual-document overlay: identity and re-fetch behaviour -/

theorem vfGet_vfSet (m : VFileMap) (k : String) (v : VirtualFile) :
    vfGet (vfSet m k v) k = some v := by
  induction m with
  | nil => simp [vfSet, vfGet]
  | cons p t ih =>
    obtain ⟨k', v'⟩ := p
    simp only [vfSet]
    split
    · simp [vfGet]
    · next hne => simp only [vfGet, if_neg hne]; exact ih

/-- C3 (corrected): two `openFile` calls with the same
`(webdavPath, fileName)` always resolve to the same virtual-file URI; but a
second open of an already-tracked document does re-fetch: it overwrites the
tracked entry with the freshly fetched remote content and `isDirty = false`,
instead of leaving the tracked content and dirty state as they were. -/
theorem openFile_same_handle_but_refetches :
    (∀ (files₁ files₂ : VFileMap) (fetch₁ fetch₂ : Except JsError String)
        (p nme : String) (now₁ now₂ : Int) (u₁ u₂ : String) (m₁ m₂ : VFileMap),
      openFile files₁ fetch₁ p nme now₁ = .ok (u₁, m₁) →
      openFile files₂ fetch₂ p nme now₂ = .ok (u₂, m₂) → u₁ = u₂) ∧
    (∀ (files : VFileMap) (p nme c : String) (now : Int) (f₀ : VirtualFile),
      vfGet files (createVirtualFileUri p nme) = some f₀ →
      ∃ m : VFileMap,
        openFile files (.ok c) p nme now = .ok (createVirtualFileUri p nme, m) ∧
        vfGet m (createVirtualFileUri p nme)
          = some ⟨p, nme, c, now, now, c.length, false⟩) := by
  constructor
  · intro files₁ files₂ fetch₁ fetch₂ p nme now₁ now₂ u₁ u₂ m₁ m₂ h₁ h₂
    have e₁ : u₁ = createVirtualFileUri p nme := by
      cases fetch₁ with
      | error e =>
        by_cases hnf : e.isNotFound = true
        · simp [openFile, hnf] at h₁; exact h₁.1.symm
        · simp [openFile, hnf] at h₁
      | ok c => simp [openFile] at h₁; exact h₁.1.symm
    have e₂ : u₂ = createVirtualFileUri p nme := by
      cases fetch₂ with
      | error e =>
        by_cases hnf : e.isNotFound = true
        · simp [openFile, hnf] at h₂; exact h₂.1.symm
        · simp [openFile, hnf] at h₂
      | ok c => simp [openFile] at h₂; exact h₂.1.symm
    rw [e₁, e₂]
  · intro files p nme c now f₀ _
    exact ⟨vfSet files (createVirtualFileUri p nme) ⟨p, nme, c, now, now, c.length, false⟩,
      rfl, vfGet_vfSet _ _ _⟩

/-- C3 counterexample: a document tracked as dirty with content
`"local edit"` is re-opened while the remote holds `"remote"`; the second
open replaces the tracked entry with content `"remote"` and `isDirty = false`,
so the in-memory content and dirty state are not left as they were. -/
theorem openFile_refetch_cex :
    (openFile [(createVirtualFileUri "/n/t.md" "t.md",
        ⟨"/n/t.md", "t.md", "local edit", 0, 0, 10, true⟩)]
      (.ok "remote") "/n/t.md" "t.md" 1).toOption
      = some (createVirtualFileUri "/n/t.md" "t.md",
        [(createVirtualFileUri "/n/t.md" "t.md",
          ⟨"/n/t.md", "t.md", "remote", 1, 1, 6, false⟩)]) ∧
    (⟨"/n/t.md", "t.md", "remote", 1, 1, 6, false⟩ : VirtualFile)
      ≠ ⟨"/n/t.md", "t.md", "local edit", 0, 0, 10, true⟩ := by decide

/-! ## Clipboard machine: cut, paste guards, clipboard frame -/

/-- C5: `cutItem` only stats the source; it issues no mutating remote call,
so the remote tree after any cut (pasted later or abandoned) is exactly the
tree before it. -/
theorem cutItem_preserves_remote_tree :
    ∀ (isConnected hasClient : Bool) (clipboard : Option ClipboardEntry)
      (item : TreeItem) (statResult : Except JsError Unit) (now : Int),
      ((cutItem isConnected hasClient clipboard item statResult now).calls.all
        (fun c => !c.isMutating)) = true ∧
      (∀ fs : RemoteFS,
        applyCalls (cutItem isConnected hasClient clipboard item statResult now).calls fs
          = fs) := by
  intro conn hasC clip item statR now
  have hc : (cutItem conn hasC clip item statR now).calls = [] ∨
      (cutItem conn hasC clip item statR now).calls = [RemoteCall.stat item.path] := by
    unfold cutItem
    split
    · exact Or.inl rfl
    · split
      · exact Or.inl rfl
      · split
        · exact Or.inr rfl
        · split
          · exact Or.inr rfl
          · exact Or.inr rfl
  rcases hc with hc | hc <;> rw [hc] <;> exact ⟨rfl, fun fs => rfl⟩

theorem pasteItem_held_run (e : ClipboardEntry) (basePath : String)
    (target : Option TreeItem) (now : Int) (o : PasteOracle) :
    pasteItem true true (some e) basePath target now o
      = pasteItemHeld e basePath target now o := rfl

/-- C4: a paste attempted strictly after the entry's timestamp plus the
10-minute expiry window is rejected at the expiry guard: the clipboard is
cleared and no remote call at all is issued. -/
theorem pasteItem_expired (e : ClipboardEntry) (basePath : String)
    (target : Option TreeItem) (now : Int) (o : PasteOracle)
    (h : e.timestamp + clipboardExpiryMs < now) :
    pasteItem true true (some e) basePath target now o
      = ⟨.expired, none, []⟩ := by
  rw [pasteItem_held_run]
  unfold pasteItemHeld
  rw [if_pos (by omega)]

/-- C4 witness: an entry taken at `T = 0` pasted at `T + expiry + 1`. -/
theorem pasteItem_expired_witness :
    pasteItem true true (some ⟨⟨"b", .file, "/a/b", false⟩, .copy, "/a/b", 0⟩)
        "/" none 600001 ⟨true, .notFound, true, true, [], true⟩
      = ⟨.expired, none, []⟩ :=
  pasteItem_expired _ _ _ _ _ (by decide)

/-- C1: when the computed destination equals the clipboard source, or the
source is a directory and the destination lies inside its own subtree,
`pasteItem` ends in a rejection (expiry, missing source, self-paste or
own-subtree), and its whole call trace is non-mutating, leaving any remote
tree unchanged. -/
theorem pasteItem_self_reference_no_mutation
    (e : ClipboardEntry) (basePath : String) (target : Option TreeItem)
    (now : Int) (o : PasteOracle)
    (h : pasteNewPath basePath target e.sourcePath = e.sourcePath ∨
      (e.item.type = .directory ∧
        (e.sourcePath ++ "/").isPrefixOf (pasteNewPath basePath target e.sourcePath)
          = true)) :
    ((pasteItem true true (some e) basePath target now o).tag = .expired ∨
     (pasteItem true true (some e) basePath target now o).tag = .sourceMissing ∨
     (pasteItem true true (some e) basePath target now o).tag = .selfPaste ∨
     (pasteItem true true (some e) basePath target now o).tag = .intoOwnSubtree) ∧
    ((pasteItem true true (some e) basePath target now o).calls.all
      (fun c => !c.isMutating)) = true ∧
    (∀ fs : RemoteFS,
      applyCalls (pasteItem true true (some e) basePath target now o).calls fs = fs) := by
  rw [pasteItem_held_run]
  simp only [pasteItemHeld]
  split
  · exact ⟨Or.inl rfl, rfl, fun fs => rfl⟩
  · split
    · exact ⟨Or.inr (Or.inl rfl), rfl, fun fs => rfl⟩
    · split
      · exact ⟨Or.inr (Or.inr (Or.inl rfl)), rfl, fun fs => rfl⟩
      · next hne =>
        split
        · exact ⟨Or.inr (Or.inr (Or.inr rfl)), rfl, fun fs => rfl⟩
        · next hn2 =>
          exfalso
          rcases h with h | h
          · exact hne h.symm
          · exact hn2 ⟨h.1, h.2⟩

/-- C1 witness: pasting the file `/a/b` into its own parent directory `/a`
computes destination `/a/b` and is rejected without any mutating call. -/
theorem pasteItem_self_reference_no_mutation_witness :
    ((pasteItem true true (some ⟨⟨"b", .file, "/a/b", false⟩, .copy, "/a/b", 0⟩)
        "/" (some ⟨"a", .directory, "/a", false⟩) 0
        ⟨true, .notFound, true, true, [], true⟩).calls.all
      (fun c => !c.isMutating)) = true :=
  (pasteItem_self_reference_no_mutation _ _ _ _ _ (by decide)).2.1

/-- C10: over every run of `pasteItem` on a held entry while connected, the
clipboard afterwards is either untouched (the same entry) or empty, it is
empty exactly on the expiry, missing-source, and cut success / cut failure
paths, and the self-paste and own-subtree rejections leave it untouched. -/
theorem pasteItem_clipboard_frame :
    ∀ (e : ClipboardEntry) (basePath : String) (target : Option TreeItem)
      (now : Int) (o : PasteOracle),
      ((pasteItem true true (some e) basePath target now o).clipboard = none ∨
       (pasteItem true true (some e) basePath target now o).clipboard = some e) ∧
      ((pasteItem true true (some e) basePath target now o).clipboard = none ↔
        ((pasteItem true true (some e) basePath target now o).tag = .expired ∨
         (pasteItem true true (some e) basePath target now o).tag = .sourceMissing ∨
         (e.operation = .cut ∧
           ((pasteItem true true (some e) basePath target now o).tag = .success ∨
            (pasteItem true true (some e) basePath target now o).tag = .failed)))) ∧
      (((pasteItem true true (some e) basePath target now o).tag = .selfPaste ∨
        (pasteItem true true (some e) basePath target now o).tag = .intoOwnSubtree) →
        (pasteItem true true (some e) basePath target now o).clipboard = some e) := by
  intro e basePath target now o
  rw [pasteItem_held_run]
  cases hop : e.operation with
  | copy =>
    simp only [pasteItemHeld, pasteTransferStep, hop]
    repeat' split
    all_goals simp_all
  | cut =>
    simp only [pasteItemHeld, pasteTransferStep, hop]
    repeat' split
    all_goals simp_all

/-! ## File transfer: the cut-with-missing-source path -/

/-- C9: in a cut transfer whose source read fails in text mode and returns
Not-Found in binary mode, `copyOrMoveFile` succeeds: it writes the empty
string through the text write path (`createFile`) and tolerates the
Not-Found error of the subsequent source delete, so the destination is a
zero-length file. -/
theorem copyOrMoveFile_cut_missing_source
    (src tgt : String) (o : FileTransferOracle) (e₁ e₂ e₃ : JsError)
    (h₁ : o.textRead = .error e₁) (_h₁n : e₁.isNotFound = true)
    (h₂ : o.binaryRead = .error e₂) (h₂n : e₂.isNotFound = true)
    (hw : o.writeOk = true)
    (h₃ : o.deleteResult = .error e₃) (h₃n : e₃.isNotFound = true) :
    copyOrMoveFile src tgt .cut o =
      ⟨true, [.getFileContents src, .getFileContents src,
              .createFile tgt "", .deleteFile src]⟩ := by
  unfold copyOrMoveFile fileDeleteStep
  rw [h₁, h₂]
  simp [h₂n, hw, h₃, h₃n]

/-- C9 witness: the concrete oracle with Not-Found on both reads and on the
delete. -/
theorem copyOrMoveFile_cut_missing_source_witness :
    copyOrMoveFile "/s" "/t" .cut
        ⟨.error ⟨true⟩, .error ⟨true⟩, true, .error ⟨true⟩⟩ =
      ⟨true, [.getFileContents "/s", .getFileContents "/s",
              .createFile "/t" "", .deleteFile "/s"]⟩ :=
  copyOrMoveFile_cut_missing_source "/s" "/t" _ ⟨true⟩ ⟨true⟩ ⟨true⟩
    rfl rfl rfl rfl rfl rfl rfl

/-! ## Connection atomicity -/

/-- C8: `connectInternal` is all-or-nothing on the session: a successful run
stores the complete new session (client handle, connected flag, cleaned
server URL, base path, username, timestamp) regardless of any prior session,
and every failing run leaves the connection `none`. -/
theorem connectInternal_atomic :
    ∀ (prior : Option WebDAVConnection) (serverUrl username password basePath : String)
      (test : Except ConnTestError Unit) (now : Int),
      (∀ b, (connectInternal prior serverUrl username password basePath test now).1
          = .ok b →
        (connectInternal prior serverUrl username password basePath test now).2
          = some ⟨⟨cleanServerUrl serverUrl, username.trim, password.trim⟩,
              true, cleanServerUrl serverUrl, basePath, username, now⟩) ∧
      (∀ msg, (connectInternal prior serverUrl username password basePath test now).1
          = .error msg →
        (connectInternal prior serverUrl username password basePath test now).2
          = none) := by
  intro prior serverUrl username password basePath test now
  unfold connectInternal
  split
  · exact ⟨fun b hb => by simp at hb, fun msg _ => rfl⟩
  · split
    · exact ⟨fun b hb => by simp at hb, fun msg _ => rfl⟩
    · cases test with
      | error e => exact ⟨fun b hb => by simp at hb, fun msg _ => rfl⟩
      | ok u => exact ⟨fun b _ => rfl, fun msg hm => by simp at hm⟩

end WebDAV
